import Mathlib

/-!
Verification of the GLideN64 frame-buffer core (`FrameBuffer.cpp`).

This file gives a shallow embedding of the data model and the operations of
the frame-buffer cache: the `_cutHeight` clipping helper, the pixel
transcoders between guest (N64) and host (GPU) 32-bit encodings, the
`FrameBuffer` record with `copyRdram` (validity capture) and `isValid`
(validity check), the `FrameBufferList` registry with `findBuffer`,
`_findBuffer` (overlap resolution) and `saveBuffer`, and the
`RDRAMtoFrameBuffer` guest-to-GPU engine with its scope-guard reset.

Machine integers are modelled as `Nat` with explicit reduction modulo `2^32`
at the points where the C++ code performs `u32` arithmetic.  Guest memory
(RDRAM) is a byte-addressed function `Nat → Nat`.  Interactions with the
host graphics API (surface allocation, blits, readback) have no effect on
the state modelled here beyond what is noted at each definition; where an
externally determined outcome feeds a branch (success of a pixel-transfer
map, pixel sums of a GL readback) it is supplied as an explicit environment
field, universally quantified in the theorems.
-/

/-- `2^32`, the modulus of `u32` arithmetic. -/
def W32 : Nat := 4294967296

/-- `u32` addition. -/
def wadd (x y : Nat) : Nat := (x + y) % W32

/-- `u32` subtraction (two's-complement wraparound), for `x y < W32`. -/
def wsub (x y : Nat) : Nat := (x + (W32 - y % W32)) % W32

/-- `u32` multiplication. -/
def wmul (x y : Nat) : Nat := (x * y) % W32

/-- `FrameBuffer.cpp`, `_cutHeight(_address, _height, _stride)`:
clips `_height` so that the byte range written from `_address` with row
stride `_stride` stays inside guest memory.  `rdramSize` is the global
`RDRAMSize` (largest valid RDRAM byte index).  All arithmetic is `u32`. -/
def cutHeight (rdramSize address height stride : Nat) : Nat :=
  if address > rdramSize then 0
  else if wadd address (wmul stride height) > wadd rdramSize 1 then
    (wsub (wadd rdramSize 1) address) / stride
  else height

/-- `FrameBuffer.cpp`, `RGBA32ToABGR32(col, _bCFB)`: decodes a guest
32-bit RGBA pixel into the host byte order (R in the low byte).  Alpha is
forced opaque for a CFB refresh, and zeroed for black source pixels. -/
def RGBA32ToABGR32 (col : Nat) (bCFB : Bool) : Nat :=
  let r := (col >>> 24) &&& 0xff
  let g := (col >>> 16) &&& 0xff
  let b := (col >>> 8) &&& 0xff
  let a := if bCFB then 0xFF else if (r ||| g ||| b) > 0 then col &&& 0xFF else 0
  (a <<< 24) ||| (b <<< 16) ||| (g <<< 8) ||| r

/-- `FrameBuffer.cpp`, `FrameBufferToRDRAM::_RGBAtoRGBA32(_c)`: re-encodes a
host pixel into the guest 32-bit order.  The C++ reads the channels through
`union RGBA` on a little-endian host, so `r` is the low byte of `_c`. -/
def RGBAtoRGBA32 (c : Nat) : Nat :=
  let r := c &&& 0xff
  let g := (c >>> 8) &&& 0xff
  let b := (c >>> 16) &&& 0xff
  let a := (c >>> 24) &&& 0xff
  (r <<< 24) ||| (g <<< 16) ||| (b <<< 8) ||| a

/-- Guest memory (`RDRAM`): a byte-addressed array, each value a byte. -/
abbrev Mem := Nat → Nat

/-- Little-endian read of the 32-bit word at word index `wi`
(C++ `((u32*)RDRAM)[wi]` on a little-endian host). -/
def readW (mem : Mem) (wi : Nat) : Nat :=
  mem (4 * wi) + 256 * mem (4 * wi + 1) + 65536 * mem (4 * wi + 2) +
    16777216 * mem (4 * wi + 3)

/-- Little-endian write of the 32-bit value `v` at word index `wi`. -/
def writeW (mem : Mem) (wi v : Nat) : Mem :=
  fun a => if a / 4 = wi then (v >>> (8 * (a % 4))) &&& 0xff else mem a

/-- The channel mask `0xFFFEFFFE` used by every validity comparison:
the low bit of each 16-bit half is ignored. -/
def mask32 : Nat := 0xFFFEFFFE

/-- One cached GPU surface record (`class FrameBuffer`).  The GL resource
handles (`m_FBO`, `m_pTexture`, `m_pResolveTexture`, `m_resolveFBO`), the
non-owning depth-partner pointer `m_pDepthBuffer`, the load tile and the
`m_isPauseScreen` / `m_isOBScreen` / `m_postProcessed` flags are not
modelled: they feed only the unembedded GL/texture paths.  `rdramCopy` is
`m_RdramCopy`, the snapshot byte vector.  `scaleX`/`scaleY` carry the exact
values of the `f32` scale factors; the embedded code only ever copies and
compares them. -/
structure FrameBuffer where
  startAddress : Nat
  endAddress : Nat
  size : Nat
  width : Nat
  height : Nat
  fillcolor : Nat
  validityChecked : Nat
  scaleX : ℚ
  scaleY : ℚ
  copiedToRdram : Bool
  fingerprint : Bool
  cleared : Bool
  changed : Bool
  cfb : Bool
  isDepthBuffer : Bool
  needHeightCorrection : Bool
  resolved : Bool
  rdramCopy : List Nat
deriving DecidableEq

/-- `FrameBuffer::isAuxiliary()`: the buffer width differs from `VI.width`. -/
def FrameBuffer.isAuxiliary (viWidth : Nat) (b : FrameBuffer) : Bool :=
  b.width != viWidth

/-- `FrameBuffer::_isMarioTennisScoreboard()`: hard-coded overlay addresses,
gated by the `hack_scoreboard` / `hack_scoreboardJ` config bits. -/
def isMarioTennisScoreboard (hackScoreboard hackScoreboardJ viPAL : Bool)
    (startAddress : Nat) : Bool :=
  if hackScoreboard then
    if viPAL then startAddress == 0x13b480 || startAddress == 0x26a530
    else startAddress == 0x13ba50 || startAddress == 0x264430
  else hackScoreboardJ && (startAddress == 0x134080 || startAddress == 0x1332f8)

/-- The row stride in guest bytes: `m_width << m_size >> 1` (`u32`). -/
def FrameBuffer.stride (b : FrameBuffer) : Nat :=
  ((b.width <<< b.size) % W32) >>> 1

/-- The clipped height a capture uses:
`_cutHeight(m_startAddress, m_height, stride)`. -/
def FrameBuffer.captureHeight (rdramSize : Nat) (b : FrameBuffer) : Nat :=
  cutHeight rdramSize b.startAddress b.height b.stride

/-- The capture's data size in bytes: `stride * height` (`u32`). -/
def FrameBuffer.captureSize (rdramSize : Nat) (b : FrameBuffer) : Nat :=
  wmul b.stride (b.captureHeight rdramSize)

/-- `FrameBuffer::copyRdram()`: validity capture.  For an auxiliary buffer
that the `copyAuxToRDRAM` policy does not flush, stamps `dataSize/200`
words (the first four from the global `fingerprint` table `fp`, the rest
zero) into guest memory from word index `m_startAddress >> 2`, and raises
the fingerprint flag; otherwise snapshots `dataSize` bytes of guest memory
into `m_RdramCopy`.  Returns the updated memory and buffer. -/
def FrameBuffer.copyRdram (rdramSize viWidth copyAuxToRDRAM : Nat)
    (fp : Nat → Nat) (mem : Mem) (b : FrameBuffer) : Mem × FrameBuffer :=
  let height := b.captureHeight rdramSize
  if height = 0 then (mem, b)
  else
    let dataSize := b.captureSize rdramSize
    if b.isAuxiliary viWidth ∧ copyAuxToRDRAM = 0 then
      let twoPercent := dataSize / 200
      let start := b.startAddress >>> 2
      let mem' := (List.range twoPercent).foldl
        (fun m i => writeW m (start + i) (if i < 4 then fp i else 0)) mem
      (mem', { b with cleared := false, fingerprint := true })
    else
      (mem, { b with rdramCopy := (List.range dataSize).map fun i => mem (b.startAddress + i) })

/-- Word `j` of the snapshot vector, read little-endian
(C++ `((const u32*)m_RdramCopy.data())[j]`). -/
def copyWord (rc : List Nat) (j : Nat) : Nat :=
  rc.getD (4 * j) 0 + 256 * rc.getD (4 * j + 1) 0 + 65536 * rc.getD (4 * j + 2) 0 +
    16777216 * rc.getD (4 * j + 3) 0

/-- `FrameBuffer::isValid()`: the validity check.  `swapCount` is
`video().getBuffersSwapCount()`.  If the buffer was already checked this
host frame the function returns `true` at once; otherwise exactly one of
the three strategies runs: fill-color sampling (`m_cleared`), fingerprint
re-read (`m_fingerprint`), or snapshot diff (`m_RdramCopy` non-empty);
with no strategy data the buffer counts as valid. -/
def FrameBuffer.isValid (swapCount : Nat) (fp : Nat → Nat) (mem : Mem)
    (b : FrameBuffer) : Bool :=
  if b.validityChecked = swapCount then true
  else if b.cleared then
    let color := b.fillcolor &&& mask32
    let s := b.startAddress >>> 2
    let e := b.endAddress >>> 2
    let wrongPixels := (List.range (e - s)).countP
      fun i => (readW mem (s + i) &&& mask32) != color
    decide (wrongPixels < (wsub b.endAddress b.startAddress) / 400)
  else if b.fingerprint then
    (List.range 4).all fun i =>
      (readW mem (b.startAddress >>> 2 + i) &&& mask32) == (fp i &&& mask32)
  else if !b.rdramCopy.isEmpty then
    let size := b.rdramCopy.length
    let sizeDwords := size >>> 2
    let s := b.startAddress >>> 2
    let wrongPixels := (List.range sizeDwords).countP
      fun j => (readW mem (s + j) &&& mask32) != (copyWord b.rdramCopy j &&& mask32)
    decide (wrongPixels < size / 400)
  else true

/-- The conflict test of `FrameBufferList::_findBuffer`: the candidate's
range contains the query start, or the query range contains the
candidate's start. -/
def conflictQ (s e : Nat) (b : FrameBuffer) : Bool :=
  (decide (b.startAddress ≤ s) && decide (s ≤ b.endAddress)) ||
  (decide (s ≤ b.startAddress) && decide (e ≥ b.startAddress))

/-- Splits a list at the first element satisfying `p`:
`some (pre, b, post)` with `pre` free of hits, or `none`. -/
def splitAtConflict (p : FrameBuffer → Bool) :
    List FrameBuffer → Option (List FrameBuffer × FrameBuffer × List FrameBuffer)
  | [] => none
  | b :: rest =>
    if p b then some ([], b, rest)
    else (splitAtConflict p rest).map fun x => (b :: x.1, x.2.1, x.2.2)

/-- The recursion of `FrameBufferList::_findBuffer`, stated on the list in
scan order.  `m_list` keeps the most recent entry at the front and the C++
iterates from `end()` back to `begin()`, so the scan visits the oldest
entry first; `rl` here is that oldest-first traversal (the reverse of
`m_list`).  The first conflicting entry is returned (as its index in `rl`,
list unchanged) when its start address and width match the query exactly;
otherwise it is erased and the whole search restarts, as in the C++
recursion.  The fuel bounds the restarts; `rl.length` is always enough
because every restart shrinks the list. -/
def findBufferLoop (s e w : Nat) : Nat → List FrameBuffer → Option Nat × List FrameBuffer
  | 0, rl => (none, rl)
  | fuel + 1, rl =>
    match splitAtConflict (conflictQ s e) rl with
    | none => (none, rl)
    | some (pre, b, post) =>
      if b.startAddress = s ∧ b.width = w then (some pre.length, rl)
      else findBufferLoop s e w fuel (pre ++ post)

/-- `FrameBufferList::_findBuffer(_startAddress, _endAddress, _width)` on a
registry list `l` in `m_list` order (most recent first): runs the scan on
the oldest-first traversal and converts the hit back to an `m_list` index.
Returns the index of the matched entry (if any) and the updated list. -/
def FrameBufferList.findBufferPriv (s e w : Nat) (l : List FrameBuffer) :
    Option Nat × List FrameBuffer :=
  let r := findBufferLoop s e w l.length l.reverse
  (r.1.map fun i => r.2.length - 1 - i, r.2.reverse)

/-- Single-pass reformulation of the overlap-resolution search, scanning
oldest entry first: a conflicting entry with matching start and width is
returned and everything after it kept; a conflicting entry that mismatches
is dropped and the scan continues; a non-conflicting entry is kept.
Equivalent to the erase-and-restart recursion (no entry is visited twice). -/
def findOnePass (s e w : Nat) : List FrameBuffer → Option Nat × List FrameBuffer
  | [] => (none, [])
  | b :: rest =>
    if conflictQ s e b then
      if b.startAddress = s ∧ b.width = w then (some 0, b :: rest)
      else findOnePass s e w rest
    else
      let r := findOnePass s e w rest
      (r.1.map (· + 1), b :: r.2)

/-- The overlap-resolution search as the specification words it, *scanning
from the most recently created entry backward*: the same conflict, match,
erase and restart rules as `findBufferLoop`, but applied to the registry
list front-first (most recent first).  Stated only to compare with the
source's scan order. -/
def findResolveSpecNewestFirst (s e w : Nat) (l : List FrameBuffer) :
    Option Nat × List FrameBuffer :=
  findBufferLoop s e w l.length l

/-- `FrameBufferList::findBuffer(_startAddress)`: index of the first entry
(most recent first) whose inclusive range contains the address. -/
def FrameBufferList.findBufferIdx (address : Nat) (l : List FrameBuffer) : Option Nat :=
  l.findIdx? fun b => decide (b.startAddress ≤ address) && decide (b.endAddress ≥ address)

/-- `FrameBufferList::removeBuffer(_address)` acting on the list and the
bound-buffer index: erases the first entry whose start address matches
exactly; the bound index is cleared if that entry was bound, and shifted
down if a nearer-to-front entry was erased. -/
def removeBufferLC (address : Nat) (l : List FrameBuffer) (cur : Option Nat) :
    List FrameBuffer × Option Nat :=
  match l.findIdx? (fun b => b.startAddress == address) with
  | none => (l, cur)
  | some k =>
    let cur' := match cur with
      | none => none
      | some j => if j = k then none else if k < j then some (j - 1) else some j
    (l.eraseIdx k, cur')

/-- The collaborator state a `saveBuffer` / sync call reads: video timing
(`VI`), the `REG.VI_WIDTH` register, configuration, the depth-image
address, the global fingerprint word table, and the outcomes of the two
GL-determined events that feed branches of the modelled code (whether the
GPU→guest readback engine completes a capture, and whether a pixel-transfer
map returns a usable pointer). -/
structure Env where
  viWidth : Nat
  viHeight : Nat
  viRealHeight : Nat
  regViWidth : Nat
  viPAL : Bool
  rdramSize : Nat
  copyAuxToRDRAM : Nat
  nativeResFactor : Nat
  copyFromRDRAMCfg : Nat
  fbInfoSupported : Bool
  oglScaleX : ℚ
  oglScaleY : ℚ
  depthImageAddress : Nat
  hackScoreboard : Bool
  hackScoreboardJ : Bool
  fp : Nat → Nat
  fbCopySuccess : Bool
  mapSuccess : Bool

/-- State of the guest→GPU engine `RDRAMtoFrameBuffer`: the bound-buffer
reference `m_pCurBuffer` (as an index into the registry list) and the
written-address queue `m_vecAddress`. -/
structure RdramToFBState where
  pCurBuffer : Option Nat
  vecAddress : List Nat
deriving DecidableEq

/-- `RDRAMtoFrameBuffer::Reset()`: clears the bound-buffer reference and
the written-address queue.  Run by `Cleaner` on every exit of
`CopyFromRDRAM`. -/
def RdramToFBState.reset (_st : RdramToFBState) : RdramToFBState :=
  { pCurBuffer := none, vecAddress := [] }

/-- Zeroes `n` bytes of guest memory from byte address `a`
(`memset(RDRAM + address, 0, totalBytes)`). -/
def zeroRange (mem : Mem) (a n : Nat) : Mem :=
  fun x => if a ≤ x ∧ x < a + n then 0 else mem x

/-- Guest-memory effect of the body of `RDRAMtoFrameBuffer::CopyFromRDRAM`
once the target buffer reference `cur?` and the queue are settled.  The
early exits (no buffer, sub-16-bit buffer, self-refresh of a changed color
image, zero clipped height, failed transfer map) leave memory untouched;
otherwise, when the push is not a CFB refresh and the buffer has changed
(`bUseAlpha`), the consumed source bytes are zeroed.  The staging-texture
fill, the `bCopy` pixel-sum test and the blended draw touch only GL state
and are not modelled.  A reference to an entry no longer in the list (a
dangling `m_pCurBuffer` in the C++) is treated as no buffer. -/
def copyFromRDRAMMem (env : Env) (l : List FrameBuffer) (colorImageChanged : Bool)
    (address : Nat) (bCFB : Bool) (cur? : Option Nat) (mem : Mem) : Mem :=
  match cur? with
  | none => mem
  | some i =>
    match l.get? i with
    | none => mem
    | some buf =>
      if buf.size < 2 then mem
      else if buf.startAddress = address ∧ colorImageChanged then mem
      else
        let addr := buf.startAddress
        let height := cutHeight env.rdramSize addr
          (if buf.startAddress = address then env.viRealHeight else buf.height) buf.stride
        if height = 0 then mem
        else if ¬env.mapSuccess then mem
        else
          let bUseAlpha := ¬bCFB ∧ buf.changed
          if bUseAlpha then
            let totalBytes := ((wmul buf.width height <<< buf.size) % W32) >>> 1
            let totalBytes := if wadd addr totalBytes > wadd env.rdramSize 1
              then wsub (wadd env.rdramSize 1) addr else totalBytes
            zeroRange mem addr totalBytes
          else mem

/-- Body of `RDRAMtoFrameBuffer::CopyFromRDRAM(_address, _bCFB)` before the
scope guard runs: resolves `m_pCurBuffer` (a null reference is looked up
through `findBuffer` when the call is a CFB refresh or the copy-from-RDRAM
policy is on without `FBInfo` support; a non-null reference with an empty
queue returns at once), then applies the guest-memory effect. -/
def copyFromRDRAMBody (env : Env) (l : List FrameBuffer) (colorImageChanged : Bool)
    (address : Nat) (bCFB : Bool) (st : RdramToFBState) (mem : Mem) :
    RdramToFBState × Mem :=
  if st.pCurBuffer = none then
    let st1 := if bCFB ∨ (env.copyFromRDRAMCfg ≠ 0 ∧ ¬env.fbInfoSupported)
      then { st with pCurBuffer := FrameBufferList.findBufferIdx address l }
      else st
    (st1, copyFromRDRAMMem env l colorImageChanged address bCFB st1.pCurBuffer mem)
  else if st.vecAddress.isEmpty then (st, mem)
  else (st, copyFromRDRAMMem env l colorImageChanged address bCFB st.pCurBuffer mem)

/-- `RDRAMtoFrameBuffer::CopyFromRDRAM(_address, _bCFB)`: the body runs
under `Cleaner cleaner(this)`, whose destructor calls `Reset()` on every
exit path, so the returned engine state is always the body's state with
the queue and bound-buffer reference cleared. -/
def copyFromRDRAM (env : Env) (l : List FrameBuffer) (colorImageChanged : Bool)
    (address : Nat) (bCFB : Bool) (st : RdramToFBState) (mem : Mem) :
    RdramToFBState × Mem :=
  let r := copyFromRDRAMBody env l colorImageChanged address bCFB st mem
  (r.1.reset, r.2)

/-- The registry state threaded through `FrameBufferList::saveBuffer`:
the list (most recent entry first), the bound-buffer index `m_pCurrent`,
`m_prevColorImageHeight`, the mutable collaborator fields
`gDP.colorImage.height` and `gDP.colorImage.changed`, the guest→GPU engine
`g_RDRAMtoFB`, and guest memory. -/
structure ListState where
  list : List FrameBuffer
  current : Option Nat
  prevColorImageHeight : Nat
  colorImageHeight : Nat
  colorImageChanged : Bool
  rdramToFB : RdramToFBState
  mem : Mem

/-- The bound buffer, when the bound index refers into the list. -/
def ListState.curBuf? (st : ListState) : Option FrameBuffer :=
  st.current.bind fun i => st.list.get? i

/-- Registry-visible effect of `FrameBuffer_CopyToRDRAM(address, true)`
(the GPU→guest color engine, `FrameBufferToRDRAM::copyToRDRAM`).  The
engine locates its target with `findBuffer`; on the paths that complete a
capture (`copyWhiteToRDRAM`, or `_copy` after a successful readback map)
it sets the target's `m_copiedToRdram`, runs `copyRdram`, and clears
`m_cleared`.  It never alters the registry list structure or any buffer's
address range.  Whether a capture completes depends on GL state outside
this model (`env.fbCopySuccess`); the read-back pixel bytes written to
guest memory before the `copyRdram` snapshot are not modelled. -/
def fbCopyToRdramEffect (env : Env) (address : Nat) (st : ListState) : ListState :=
  match FrameBufferList.findBufferIdx address st.list with
  | none => st
  | some i =>
    if env.fbCopySuccess then
      match st.list.get? i with
      | none => st
      | some b =>
        let cap := FrameBuffer.copyRdram env.rdramSize env.viWidth env.copyAuxToRDRAM
          env.fp st.mem { b with copiedToRdram := true }
        { st with list := st.list.set i { cap.2 with cleared := false }, mem := cap.1 }
    else st

/-- `FrameBuffer::init(...)` as invoked from `saveBuffer` on a freshly
constructed entry: the constructor zero/false-initializes every field, and
`init` then fills identity, geometry, the oversampling factors (forced to
1× for an auxiliary buffer under the copy-aux policy, otherwise the
native-resolution factor or the video plugin's scale), resets the
fill color and the validity flags, and records whether the height needs
correction.  The `_format` argument only parametrizes the GL texture and
is not part of the modelled state. -/
def FrameBuffer.initBuf (env : Env) (address endAddress size width height : Nat)
    (cfb : Bool) : FrameBuffer :=
  { startAddress := address
    endAddress := endAddress
    size := size
    width := width
    height := height
    fillcolor := 0
    validityChecked := 0
    scaleX := if width ≠ env.viWidth ∧ env.copyAuxToRDRAM ≠ 0 then 1
              else if env.nativeResFactor ≠ 0 then (env.nativeResFactor : ℚ)
              else env.oglScaleX
    scaleY := if width ≠ env.viWidth ∧ env.copyAuxToRDRAM ≠ 0 then 1
              else if env.nativeResFactor ≠ 0 then (env.nativeResFactor : ℚ)
              else env.oglScaleY
    copiedToRdram := false
    fingerprint := false
    cleared := false
    changed := false
    cfb := cfb
    isDepthBuffer := false
    needHeightCorrection := decide (width ≠ env.viWidth ∧ width ≠ env.regViWidth)
    resolved := false
    rdramCopy := [] }

/-- `saveBuffer` step 1: under the `copyAuxToRDRAM` policy, a bound
auxiliary buffer is flushed to guest memory and evicted before anything
else happens. -/
def saveBufferStep1 (env : Env) (st0 : ListState) : ListState :=
  match st0.curBuf? with
  | some cur =>
    if env.copyAuxToRDRAM ≠ 0 ∧ cur.isAuxiliary env.viWidth then
      let stA := fbCopyToRdramEffect env cur.startAddress st0
      let rc := removeBufferLC cur.startAddress stA.list stA.current
      { stA with list := rc.1, current := rc.2 }
    else st0
  | none => st0

/-- The end-address correction of `saveBuffer` step 3 applied to the bound
buffer: for a non-auxiliary buffer the reported color-image height is
laundered through `m_prevColorImageHeight` (heights above 200 are
remembered, a zero height reuses the remembered one) and clamped to
`VI.height`, and the end address is recomputed from it (clamped to
`RDRAMSize`); an auxiliary buffer flagged for height correction gets the
same recomputation from the raw reported height.  Returns the corrected
buffer and the new `(m_prevColorImageHeight, gDP.colorImage.height)`. -/
def correctEnd (env : Env) (colorImageHeight prevH : Nat) (cur : FrameBuffer) :
    FrameBuffer × Nat × Nat :=
  if ¬cur.isAuxiliary env.viWidth then
    let prev1 := if colorImageHeight > 200 then colorImageHeight else prevH
    let h1 := if colorImageHeight > 200 then colorImageHeight
              else if colorImageHeight = 0 then prevH
              else colorImageHeight
    let h2 := min h1 env.viHeight
    ({ cur with endAddress := (min env.rdramSize
        (wadd cur.startAddress (wsub (((wmul cur.width h2 <<< cur.size) % W32) >>> 1) 1))) },
     prev1, h2)
  else if cur.needHeightCorrection ∧ colorImageHeight ≠ 0 then
    ({ cur with endAddress := (min env.rdramSize
        (wadd cur.startAddress (wsub (((wmul cur.width colorImageHeight <<< cur.size) % W32) >>> 1) 1))) },
     prevH, colorImageHeight)
  else (cur, prevH, colorImageHeight)

/-- `saveBuffer` step 3: when a buffer is bound, correct its end address,
capture a guest-memory snapshot for later validity checking when eligible
(not the scoreboard overlay, not a depth buffer, not already synced to
guest memory, not a CFB, not cleared, no snapshot yet, reported height
above one pixel), and re-resolve the bound buffer's identity through the
overlap-resolution search `_findBuffer`. -/
def saveBufferStep3 (env : Env) (st1 : ListState) : ListState :=
  match st1.current with
  | none => st1
  | some i =>
    match st1.list.get? i with
    | none => st1
    | some cur =>
      let corr := correctEnd env st1.colorImageHeight st1.prevColorImageHeight cur
      let cur1 := corr.1
      let cap :=
        if ¬isMarioTennisScoreboard env.hackScoreboard env.hackScoreboardJ env.viPAL
              cur1.startAddress
           ∧ ¬cur1.isDepthBuffer ∧ ¬cur1.copiedToRdram ∧ ¬cur1.cfb ∧ ¬cur1.cleared
           ∧ cur1.rdramCopy = [] ∧ corr.2.2 > 1 then
          FrameBuffer.copyRdram env.rdramSize env.viWidth env.copyAuxToRDRAM env.fp st1.mem cur1
        else (st1.mem, cur1)
      let l1 := st1.list.set i cap.2
      let fr := FrameBufferList.findBufferPriv cap.2.startAddress cap.2.endAddress cap.2.width l1
      { st1 with list := fr.2, current := fr.1, mem := cap.1,
                 prevColorImageHeight := corr.2.1, colorImageHeight := corr.2.2 }

/-- `saveBuffer` steps 4–5: fall back to a range lookup (`findBuffer`)
when the bound buffer does not match the request's start address and width
exactly.  Only `m_pCurrent` changes. -/
def saveBufferStep45 (address width : Nat) (st2 : ListState) : ListState :=
  match st2.curBuf? with
  | some cur =>
    if cur.startAddress ≠ address ∨ cur.width ≠ width then
      { st2 with current := FrameBufferList.findBufferIdx address st2.list }
    else st2
  | none => { st2 with current := FrameBufferList.findBufferIdx address st2.list }

/-- `saveBuffer` step 6: evict the found buffer when its identity or
oversampling factors mismatch the request (forcing recreation), otherwise
rebind it in place, applying a color-format-only size change and
refreshing the guest-memory capture when the buffer had been synced. -/
def saveBufferStep6 (env : Env) (address size width : Nat) (st3 : ListState) : ListState :=
  let scaleX : ℚ := if env.nativeResFactor = 0 then env.oglScaleX else (env.nativeResFactor : ℚ)
  let scaleY : ℚ := if env.nativeResFactor = 0 then env.oglScaleY else scaleX
  match st3.current with
  | none => st3
  | some i =>
    match st3.list.get? i with
    | none => st3
    | some cur =>
      if cur.startAddress ≠ address ∨ cur.width ≠ width ∨ cur.scaleX ≠ scaleX ∨
          cur.scaleY ≠ scaleY then
        let rc := removeBufferLC cur.startAddress st3.list st3.current
        { st3 with list := rc.1, current := none }
      else
        let cur1 := { cur with resolved := false }
        if cur1.size ≠ size then
          let cur2 := { cur1 with size := size }
          let cap := if cur2.copiedToRdram then
              FrameBuffer.copyRdram env.rdramSize env.viWidth env.copyAuxToRDRAM env.fp
                st3.mem cur2
            else (st3.mem, cur2)
          { st3 with list := st3.list.set i cap.2, mem := cap.1 }
        else { st3 with list := st3.list.set i cur1 }

/-- `saveBuffer` steps 4–6, composed. -/
def saveBufferStep456 (env : Env) (address size width : Nat) (st2 : ListState) :
    ListState :=
  saveBufferStep6 env address size width (saveBufferStep45 address width st2)

/-- `saveBuffer` step 7: when nothing was (re)bound, construct a new
buffer at the front of the list and bind it; for the hard-coded scoreboard
overlay, immediately push guest memory into it through the guest→GPU
engine. -/
def saveBufferStep7 (env : Env) (address endAddress size width height : Nat)
    (cfb : Bool) (st4 : ListState) : ListState :=
  match st4.current with
  | some _ => st4
  | none =>
    let nb := FrameBuffer.initBuf env address endAddress size width height cfb
    let stN := { st4 with list := nb :: st4.list, current := some 0 }
    if isMarioTennisScoreboard env.hackScoreboard env.hackScoreboardJ env.viPAL
        nb.startAddress then
      let r := copyFromRDRAM env stN.list stN.colorImageChanged (wadd nb.startAddress 4)
        false stN.rdramToFB stN.mem
      { stN with rdramToFB := r.1, mem := r.2 }
    else stN

/-- `saveBuffer` steps 8–9: the depth partner is attached or detached in
external collaborators (`depthBufferList().saveBuffer` /
`attachDepthBuffer` touch only fields outside this model); the bound
buffer's depth flag is then recorded and its capture-only flags cleared
(the latter are not modelled). -/
def saveBufferStep89 (env : Env) (address : Nat) (st5 : ListState) : ListState :=
  match st5.current with
  | none => st5
  | some i =>
    match st5.list.get? i with
    | none => st5
    | some cur =>
      let cur1 := { cur with isDepthBuffer := decide (address = env.depthImageAddress) }
      { st5 with list := st5.list.set i cur1 }

/-- `FrameBufferList::saveBuffer(_address, _format, _size, _width, _height,
_cfb)`: the buffer-switch entry point, as the composition of its steps.
When the display is unconfigured or the requested height is zero the call
unbinds and returns (step 2).  `_format` parametrizes only the GL texture
and does not enter the modelled state. -/
def FrameBufferList.saveBuffer (env : Env) (address _format size width height : Nat)
    (cfb : Bool) (st0 : ListState) : ListState :=
  let st1 := saveBufferStep1 env st0
  if env.viWidth = 0 ∨ height = 0 then { st1 with current := none }
  else
    let st2 := saveBufferStep3 env st1
    let endAddress := wsub (wadd address (((width * height <<< size) % W32) >>> 1)) 1
    let st4 := saveBufferStep456 env address size width st2
    let st5 := saveBufferStep7 env address endAddress size width height cfb st4
    saveBufferStep89 env address st5

/-- The identity of a registry entry for the no-overlap property: its
inclusive byte range and its width. -/
structure BufRange where
  start : Nat
  stop : Nat
  width : Nat
deriving DecidableEq

/-- The range triple of a buffer entry. -/
def FrameBuffer.range (b : FrameBuffer) : BufRange :=
  ⟨b.startAddress, b.endAddress, b.width⟩

/-- Two entries are compatible when their inclusive `[start, stop]` ranges
are disjoint, or they agree on both start address and width. -/
def BufRange.compat (t1 t2 : BufRange) : Prop :=
  (t1.start = t2.start ∧ t1.width = t2.width) ∨ t1.stop < t2.start ∨ t2.stop < t1.start

instance : DecidableRel BufRange.compat := fun _ _ =>
  inferInstanceAs (Decidable (_ ∨ _))

/-- The no-overlap invariant of the specification: every pair of distinct
live entries is compatible. -/
def noOverlapInvariant (l : List FrameBuffer) : Prop :=
  l.Pairwise fun a b => a.range.compat b.range

/-- One `saveBuffer` call: its environment and arguments. -/
structure SaveCall where
  env : Env
  address : Nat
  format : Nat
  size : Nat
  width : Nat
  height : Nat
  cfb : Bool

/-- The registry right after `FrameBufferList::init()`: empty list, no
bound buffer, zero remembered height; the collaborator fields and guest
memory start in an arbitrary state. -/
def initRegistry (mem0 : Mem) (h0 : Nat) (ch0 : Bool) : ListState :=
  { list := [], current := none, prevColorImageHeight := 0, colorImageHeight := h0,
    colorImageChanged := ch0, rdramToFB := { pCurBuffer := none, vecAddress := [] },
    mem := mem0 }

/-- Runs a sequence of `saveBuffer` calls. -/
def runSaveBuffers (st : ListState) : List SaveCall → ListState
  | [] => st
  | c :: cs => runSaveBuffers
      (FrameBufferList.saveBuffer c.env c.address c.format c.size c.width c.height c.cfb st) cs

/-- The range triples a single `saveBuffer` call materializes: the
corrected range that step 3 writes into the bound buffer (computed from
the state after step 1), and the requested range of the call itself.
Empty when the call returns at step 2. -/
def corrRangeOf (env : Env) (st : ListState) : List BufRange :=
  match st.curBuf? with
  | none => []
  | some cur =>
    [(correctEnd env st.colorImageHeight st.prevColorImageHeight cur).1.range]

def saveBufferRanges (env : Env) (address size width height : Nat)
    (st0 : ListState) : List BufRange :=
  let st1 := saveBufferStep1 env st0
  if env.viWidth = 0 ∨ height = 0 then []
  else
    corrRangeOf env st1 ++
      [⟨address, wsub (wadd address (((width * height <<< size) % W32) >>> 1)) 1, width⟩]

/-- All range triples materialized by a sequence of `saveBuffer` calls. -/
def runRanges (st : ListState) : List SaveCall → List BufRange
  | [] => []
  | c :: cs =>
    saveBufferRanges c.env c.address c.size c.width c.height st
      ++ runRanges
          (FrameBufferList.saveBuffer c.env c.address c.format c.size c.width c.height c.cfb st) cs

/-- Modelled from the spec: the caller-side marking of the per-frame
validity cache is not part of the analyzed source — the field
`m_validityChecked` is written by the external texture-sampling code that
consults `isValid`.  Per the specification, validity "is cached per
host-frame (a monotonically increasing swap counter)": after a check runs
in host frame `swapCount` the buffer is marked as checked in that frame,
whatever the check returned. -/
def markChecked (swapCount : Nat) (b : FrameBuffer) : FrameBuffer :=
  { b with validityChecked := swapCount }

instance : DecidableRel BufRange.compat := fun _ _ =>
  inferInstanceAs (Decidable (_ ∨ _))

instance : DecidableRel (fun a b : FrameBuffer => a.range.compat b.range) := fun _ _ =>
  inferInstanceAs (Decidable (_ ∨ _))

instance (l : List FrameBuffer) : Decidable (noOverlapInvariant l) :=
  inferInstanceAs (Decidable (List.Pairwise _ l))

/-- All-zero guest memory, used by the concrete examples. -/
def memZ : Mem := fun _ => 0

/-- A concrete fingerprint word table for the examples (entries are `u32`
values; the real table is an external global). -/
def fpC : Nat → Nat := fun i => i % 4 * 1000 + 2

/-- A concrete collaborator environment for the examples: a configured
64-pixel display with the 8 MB RDRAM bound, the copy-aux policy off,
native-resolution factor 1 (so every buffer gets scale 1), and no game
hacks. -/
def env0 : Env :=
  { viWidth := 64, viHeight := 64, viRealHeight := 64, regViWidth := 64, viPAL := false,
    rdramSize := 0x7FFFFF, copyAuxToRDRAM := 0, nativeResFactor := 1,
    copyFromRDRAMCfg := 0, fbInfoSupported := false, oglScaleX := 1, oglScaleY := 1,
    depthImageAddress := 0xFFFFF0, hackScoreboard := false, hackScoreboardJ := false,
    fp := fpC, fbCopySuccess := false, mapSuccess := true }

/-- Three concrete buffer-switch calls: create `[0x1000, 0x2FFF]`, unbind
via a zero-height request, then create `[0x0, 0x1FFF]` (same width). -/
def calls0 : List SaveCall :=
  [ { env := env0, address := 0x1000, format := 0, size := 2, width := 64, height := 64,
      cfb := false },
    { env := env0, address := 0x9000, format := 0, size := 2, width := 64, height := 0,
      cfb := false },
    { env := env0, address := 0, format := 0, size := 2, width := 64, height := 64,
      cfb := false } ]

/-- Two concrete buffer-switch calls with disjoint ranges:
create `[0x1000, 0x2FFF]`, then create `[0x4000, 0x5FFF]`. -/
def callsW : List SaveCall :=
  [ { env := env0, address := 0x1000, format := 0, size := 2, width := 64, height := 64,
      cfb := false },
    { env := env0, address := 0x4000, format := 0, size := 2, width := 64, height := 64,
      cfb := false } ]

/-- A buffer entry with the given range identity and 16-bit pixels; every
flag in its freshly-created state. -/
def mkBuf (s e w : Nat) : FrameBuffer :=
  { startAddress := s, endAddress := e, size := 2, width := w, height := 0, fillcolor := 0,
    validityChecked := 0, scaleX := 1, scaleY := 1, copiedToRdram := false,
    fingerprint := false, cleared := false, changed := false, cfb := false,
    isDepthBuffer := false, needHeightCorrection := false, resolved := false,
    rdramCopy := [] }

/-- Most recent entry of the two-entry example registry: range
`[0, 100]`, width 10. -/
def b1ex : FrameBuffer := mkBuf 0 100 10

/-- Older entry of the two-entry example registry: range `[0, 50]`,
width 10. -/
def b2ex : FrameBuffer := mkBuf 0 50 10

/-- A small non-auxiliary buffer (width = display width 4, 16-bit pixels,
height 4): its snapshot capture is 32 bytes, below the 400-byte threshold
granularity. -/
def bufC4 : FrameBuffer := { mkBuf 0x100 0x11F 4 with height := 4 }

/-- A small auxiliary buffer (width 10 against display width 64, height
10): its capture data size is 200 bytes, so the "2%" stamp is one word. -/
def bufC6 : FrameBuffer := { mkBuf 0x200 0x2C7 10 with height := 10 }

/-- A buffer with a one-word snapshot that mismatches all-zero guest
memory: a fresh validity check fails on it. -/
def bufC7 : FrameBuffer := { mkBuf 0 3 4 with rdramCopy := [1, 2, 3, 4] }

/-- An auxiliary buffer (width 10 against display width 64) whose capture
data size is 800 bytes (height 40): the stamp covers four words. -/
def bufC4fp : FrameBuffer := { mkBuf 0x300 0x61F 10 with height := 40 }

/-- A non-auxiliary buffer (width 4 = display width) whose snapshot is 400
bytes (height 50), aligned start address. -/
def bufC4sn : FrameBuffer := { mkBuf 0x400 0x58F 4 with height := 50 }

/-! ## Theorems -/

/-- **C10**: for every buffer with no active validity strategy — not marked
cleared, no fingerprint stamped, and an empty snapshot — the validity check
`isValid` returns `true`: a buffer that captured no validity data is always
reported valid. -/
theorem isValid_no_strategy (swapCount : Nat) (fp : Nat → Nat) (mem : Mem)
    (b : FrameBuffer) (hc : b.cleared = false) (hf : b.fingerprint = false)
    (hr : b.rdramCopy = []) : b.isValid swapCount fp mem = true := by
  unfold FrameBuffer.isValid
  simp [hc, hf, hr]

/-- Witness for **C10** at a concrete buffer. -/
theorem isValid_no_strategy_witness :
    (mkBuf 0 100 10).cleared = false ∧ (mkBuf 0 100 10).fingerprint = false ∧
    (mkBuf 0 100 10).rdramCopy = [] ∧ (mkBuf 0 100 10).isValid 5 fpC memZ = true :=
  ⟨rfl, rfl, rfl, isValid_no_strategy 5 fpC memZ _ rfl rfl rfl⟩

/-- **C7**, counterexample: `bufC7`'s snapshot disagrees with all-zero guest
memory, so the check in host frame 1 returns `false`; once the buffer is
marked as checked in frame 1 (the marking itself happens in external
caller code, modelled from the spec by `markChecked`), a further `isValid`
call in frame 1 returns `true` — not the earlier result. -/
theorem isValid_cached_counterexample :
    bufC7.isValid 1 fpC memZ = false ∧
    (markChecked 1 bufC7).isValid 1 fpC memZ = true := by
  constructor <;> decide

/-- **C7** (amended): for every buffer whose validity-checked counter
equals the current buffers-swap count, `isValid` returns `true`
unconditionally — whatever the earlier check returned — without examining
guest memory (the result does not depend on `mem`). -/
theorem isValid_cached_true (swapCount : Nat) (fp : Nat → Nat) (b : FrameBuffer)
    (h : b.validityChecked = swapCount) :
    ∀ mem : Mem, b.isValid swapCount fp mem = true := by
  intro mem
  unfold FrameBuffer.isValid
  simp [h]

/-- Witness for **C7** at a concrete buffer. -/
theorem isValid_cached_true_witness :
    (markChecked 1 bufC7).validityChecked = 1 ∧
    (markChecked 1 bufC7).isValid 1 fpC memZ = true :=
  ⟨rfl, isValid_cached_true 1 fpC (markChecked 1 bufC7) rfl memZ⟩

/-- **C9**: every call to the guest→GPU push `CopyFromRDRAM`, on every exit
path including all early returns, leaves the engine's written-address queue
empty and its current-buffer reference null: the scope guard `Cleaner`
applies `Reset` to the body's final state unconditionally. -/
theorem copyFromRDRAM_resets (env : Env) (l : List FrameBuffer) (ch : Bool)
    (address : Nat) (bCFB : Bool) (st : RdramToFBState) (mem : Mem) :
    (copyFromRDRAM env l ch address bCFB st mem).1.vecAddress = [] ∧
    (copyFromRDRAM env l ch address bCFB st mem).1.pCurBuffer = none :=
  ⟨rfl, rfl⟩

/-- **C2**, counterexample: at `RDRAMSize = 0x7FFFFF`, the address
`0x800001` lies beyond guest memory, `_cutHeight` clips the height to `0`,
and `address + stride * 0 = 0x800001` still exceeds `RDRAMSize + 1` — the
claimed bound fails for out-of-range addresses. -/
theorem cutHeight_bound_counterexample :
    cutHeight 0x7FFFFF 0x800001 1 1 = 0 ∧
    0x7FFFFF + 1 < 0x800001 + 1 * cutHeight 0x7FFFFF 0x800001 1 1 := by
  constructor <;> decide

/-- **C2** (amended): assuming the true extent `address + stride * height`
does not overflow 32-bit arithmetic (and a sane `RDRAMSize`): for an
address within guest memory the clipped height `h` of `_cutHeight`
satisfies `address + stride * h ≤ RDRAMSize + 1`; an address beyond guest
memory yields `h = 0`; and when the unclipped extent exceeds the bound,
`h = min height ((RDRAMSize + 1 - address) / stride)`. -/
theorem cutHeight_bound (rdramSize address height stride : Nat)
    (hw : rdramSize + 1 < W32) (hof : address + stride * height < W32) :
    (address ≤ rdramSize →
      address + stride * cutHeight rdramSize address height stride ≤ rdramSize + 1) ∧
    (rdramSize < address → cutHeight rdramSize address height stride = 0) ∧
    (address ≤ rdramSize → rdramSize + 1 < address + stride * height →
      cutHeight rdramSize address height stride =
        min height ((rdramSize + 1 - address) / stride)) := by
  have hmul : wmul stride height = stride * height := by
    unfold wmul; exact Nat.mod_eq_of_lt (by omega)
  have hwadd : wadd address (wmul stride height) = address + stride * height := by
    rw [hmul]; unfold wadd; exact Nat.mod_eq_of_lt hof
  have hr1 : wadd rdramSize 1 = rdramSize + 1 := by
    unfold wadd; exact Nat.mod_eq_of_lt hw
  refine ⟨?_, ?_, ?_⟩
  · intro hle
    have hsub : wsub (wadd rdramSize 1) address = rdramSize + 1 - address := by
      rw [hr1]; unfold wsub
      rw [Nat.mod_eq_of_lt (show address < W32 by omega)]
      have hE : rdramSize + 1 + (W32 - address) = (rdramSize + 1 - address) + W32 := by
        omega
      rw [hE, Nat.add_mod_right]
      exact Nat.mod_eq_of_lt (by omega)
    unfold cutHeight
    rw [if_neg (by omega)]
    by_cases hgt : wadd address (wmul stride height) > wadd rdramSize 1
    · rw [if_pos hgt, hsub]
      have h2 := Nat.div_mul_le_self (rdramSize + 1 - address) stride
      calc address + stride * ((rdramSize + 1 - address) / stride)
          = address + (rdramSize + 1 - address) / stride * stride := by
            rw [Nat.mul_comm]
        _ ≤ address + (rdramSize + 1 - address) := Nat.add_le_add_left h2 _
        _ ≤ rdramSize + 1 := by omega
    · rw [if_neg hgt]
      rw [hwadd, hr1] at hgt
      omega
  · intro hgt
    unfold cutHeight
    rw [if_pos hgt]
  · intro hle hgt
    have hsub : wsub (wadd rdramSize 1) address = rdramSize + 1 - address := by
      rw [hr1]; unfold wsub
      rw [Nat.mod_eq_of_lt (show address < W32 by omega)]
      have hE : rdramSize + 1 + (W32 - address) = (rdramSize + 1 - address) + W32 := by
        omega
      rw [hE, Nat.add_mod_right]
      exact Nat.mod_eq_of_lt (by omega)
    unfold cutHeight
    rw [if_neg (by omega), if_pos (by rw [hwadd, hr1]; omega), hsub]
    have hstride : 0 < stride := by
      rcases Nat.eq_zero_or_pos stride with h0 | h0
      · subst h0; simp at hgt; omega
      · exact h0
    have hlt : (rdramSize + 1 - address) / stride < height := by
      rw [Nat.div_lt_iff_lt_mul hstride]
      have : rdramSize + 1 - address < stride * height := by
        generalize stride * height = SH at hgt ⊢
        omega
      rw [Nat.mul_comm] at this
      exact this
    rw [Nat.min_eq_right hlt.le]

/-- Witness for **C2** (amended) at a concrete in-bounds input and a
concrete clipped input. -/
theorem cutHeight_bound_witness :
    0x7F0000 + 0x2000 * cutHeight 0x7FFFFF 0x7F0000 100 0x2000 ≤ 0x7FFFFF + 1 ∧
    cutHeight 0x7FFFFF 0x7F0000 100 0x2000 =
      min 100 ((0x7FFFFF + 1 - 0x7F0000) / 0x2000) := by
  have h := cutHeight_bound 0x7FFFFF 0x7F0000 100 0x2000 (by decide) (by decide)
  exact ⟨h.1 (by decide), h.2.2 (by decide) (by decide)⟩

/-- Disjoint-lane bitwise or is addition: when `b` fits below bit `n`,
`2 ^ n * a ||| b = 2 ^ n * a + b`. -/
theorem lor_disjoint (n a b : Nat) (hb : b < 2 ^ n) : (2 ^ n * a) ||| b = 2 ^ n * a + b := by
  apply Nat.eq_of_testBit_eq
  intro i
  rw [Nat.testBit_lor, Nat.testBit_mul_pow_two, Nat.testBit_mul_pow_two_add a hb]
  by_cases h : i < n
  · simp [h, Nat.not_le_of_lt h]
  · have hbi : b.testBit i = false :=
      Nat.testBit_eq_false_of_lt
        (lt_of_lt_of_le hb (Nat.pow_le_pow_right (by norm_num) (le_of_not_lt h)))
    simp [h, le_of_not_lt h, hbi]

/-- Packing four byte lanes with `<<<` and `|||` equals the weighted sum. -/
theorem pack4 (a b g r : Nat) (hb : b < 256) (hg : g < 256) (hr : r < 256) :
    (a <<< 24) ||| (b <<< 16) ||| (g <<< 8) ||| r =
      a * 2 ^ 24 + b * 2 ^ 16 + g * 2 ^ 8 + r := by
  rw [Nat.shiftLeft_eq, Nat.shiftLeft_eq, Nat.shiftLeft_eq]
  have s1 : a * 2 ^ 24 ||| b * 2 ^ 16 = 2 ^ 24 * a + b * 2 ^ 16 := by
    rw [Nat.mul_comm a]
    exact lor_disjoint 24 a (b * 2 ^ 16) (by omega)
  rw [s1]
  have s2 : 2 ^ 24 * a + b * 2 ^ 16 ||| g * 2 ^ 8 = 2 ^ 16 * (2 ^ 8 * a + b) + g * 2 ^ 8 := by
    have e : 2 ^ 24 * a + b * 2 ^ 16 = 2 ^ 16 * (2 ^ 8 * a + b) := by ring
    rw [e]
    exact lor_disjoint 16 _ (g * 2 ^ 8) (by omega)
  rw [s2]
  have s3 : 2 ^ 16 * (2 ^ 8 * a + b) + g * 2 ^ 8 ||| r
      = 2 ^ 8 * (2 ^ 8 * (2 ^ 8 * a + b) + g) + r := by
    have e : 2 ^ 16 * (2 ^ 8 * a + b) + g * 2 ^ 8 = 2 ^ 8 * (2 ^ 8 * (2 ^ 8 * a + b) + g) := by
      ring
    rw [e]
    exact lor_disjoint 8 _ r (by omega)
  rw [s3]; ring

/-- A bitwise or vanishes exactly when both operands do. -/
theorem lor_eq_zero_iff (x y : Nat) : x ||| y = 0 ↔ x = 0 ∧ y = 0 := by
  constructor
  · intro h
    have hx : ∀ i, x.testBit i = false ∧ y.testBit i = false := by
      intro i
      have hb := congrArg (fun z : Nat => z.testBit i) h
      simp only [Nat.testBit_lor, Nat.zero_testBit] at hb
      exact Bool.or_eq_false_iff.mp hb
    exact ⟨Nat.eq_of_testBit_eq fun i => by rw [(hx i).1, Nat.zero_testBit],
           Nat.eq_of_testBit_eq fun i => by rw [(hx i).2, Nat.zero_testBit]⟩
  · rintro ⟨rfl, rfl⟩; rfl

/-- Masking with `0xff` is reduction modulo 256. -/
theorem and255 (x : Nat) : x &&& 255 = x % 256 := by
  have h := Nat.and_pow_two_sub_one_eq_mod x 8
  norm_num at h
  exact h

/-- Byte-lane extraction from a packed 32-bit word. -/
theorem byte_extract (p q r s : Nat) (hp : p < 256) (hq : q < 256) (hr : r < 256)
    (hs : s < 256) :
    (p * 2 ^ 24 + q * 2 ^ 16 + r * 2 ^ 8 + s) % 256 = s ∧
    (p * 2 ^ 24 + q * 2 ^ 16 + r * 2 ^ 8 + s) / 2 ^ 8 % 256 = r ∧
    (p * 2 ^ 24 + q * 2 ^ 16 + r * 2 ^ 8 + s) / 2 ^ 16 % 256 = q ∧
    (p * 2 ^ 24 + q * 2 ^ 16 + r * 2 ^ 8 + s) / 2 ^ 24 % 256 = p :=
  ⟨by omega, by omega, by omega, by omega⟩

/-- **C5** (amended): decoding a 32-bit guest pixel with `RGBA32ToABGR32`
(non-CFB) and re-encoding the host pixel with `_RGBAtoRGBA32` restores the
exact original value, provided the pixel has a nonzero color component or
zero alpha.  (A black pixel with nonzero alpha has its alpha collapsed to
zero by the decoder — see the counterexample.) -/
theorem rgba32_roundtrip (col : Nat) (hcol : col < W32)
    (h : col >>> 8 ≠ 0 ∨ col &&& 0xff = 0) :
    RGBAtoRGBA32 (RGBA32ToABGR32 col false) = col := by
  simp only [RGBA32ToABGR32, RGBAtoRGBA32, Bool.false_eq_true, if_false]
  simp only [and255, Nat.shiftRight_eq_div_pow, W32] at h hcol ⊢
  obtain ⟨x3, x2, x1, x0, hx3, hx2, hx1, hx0, hcol2⟩ :
      ∃ x3 x2 x1 x0, x3 < 256 ∧ x2 < 256 ∧ x1 < 256 ∧ x0 < 256 ∧
        col = x3 * 2 ^ 24 + x2 * 2 ^ 16 + x1 * 2 ^ 8 + x0 :=
    ⟨col / 2 ^ 24 % 256, col / 2 ^ 16 % 256, col / 2 ^ 8 % 256, col % 256,
      by omega, by omega, by omega, by omega, by omega⟩
  subst hcol2
  obtain ⟨E0, E1, E2, E3⟩ := byte_extract x3 x2 x1 x0 hx3 hx2 hx1 hx0
  rw [E0, E1, E2, E3]
  clear E0 E1 E2 E3
  split
  case isTrue hC =>
    rw [pack4 x0 x1 x2 x3 hx1 hx2 hx3]
    obtain ⟨F0, F1, F2, F3⟩ := byte_extract x0 x1 x2 x3 hx0 hx1 hx2 hx3
    rw [F0, F1, F2, F3]
    rw [pack4 x3 x2 x1 x0 hx2 hx1 hx0]
  case isFalse hC =>
    have hz : x3 ||| x2 ||| x1 = 0 := Nat.eq_zero_of_not_pos hC
    have h1 := (lor_eq_zero_iff _ _).mp hz
    have h2 := (lor_eq_zero_iff _ _).mp h1.1
    obtain ⟨hx3z, hx2z⟩ := h2
    have hx1z := h1.2
    subst hx3z; subst hx2z; subst hx1z
    have hx0z : x0 = 0 := by
      rcases h with h | h
      · exact absurd (by omega : (0 * 2 ^ 24 + 0 * 2 ^ 16 + 0 * 2 ^ 8 + x0) / 2 ^ 8 = 0) h
      · omega
    subst hx0z
    norm_num

/-- **C5**, counterexample: the pixel `0x00000005` — black with alpha 5 —
decodes to all-zero (the decoder zeroes alpha for black pixels), so the
re-encoded value is `0`, not the original: the 32-bit round trip is not
lossless for every value. -/
theorem rgba32_roundtrip_counterexample :
    RGBAtoRGBA32 (RGBA32ToABGR32 0x00000005 false) ≠ 0x00000005 := by decide

/-- Witness for **C5** (amended) at a concrete pixel value. -/
theorem rgba32_roundtrip_witness :
    0x11223344 < W32 ∧ (0x11223344 : Nat) >>> 8 ≠ 0 ∧
    RGBAtoRGBA32 (RGBA32ToABGR32 0x11223344 false) = 0x11223344 :=
  ⟨by decide, by decide, rgba32_roundtrip 0x11223344 (by decide) (Or.inl (by decide))⟩

theorem writeW_ne (m : Mem) (wi v a : Nat) (h : a / 4 ≠ wi) : writeW m wi v a = m a := by
  unfold writeW; rw [if_neg h]

theorem writeW_eq (m : Mem) (wi v a : Nat) (h : a / 4 = wi) :
    writeW m wi v a = (v >>> (8 * (a % 4))) &&& 0xff := by
  unfold writeW; rw [if_pos h]

theorem foldWrite_at (val : Nat → Nat) (s0 : Nat) :
    ∀ (n : Nat) (m : Mem) (a : Nat), s0 ≤ a / 4 → a / 4 < s0 + n →
      (List.range n).foldl (fun mm i => writeW mm (s0 + i) (val i)) m a
        = (val (a / 4 - s0) >>> (8 * (a % 4))) &&& 0xff := by
  intro n
  induction n with
  | zero => intro m a h1 h2; omega
  | succ n ih =>
    intro m a h1 h2
    rw [List.range_succ, List.foldl_append]
    simp only [List.foldl_cons, List.foldl_nil]
    by_cases he : a / 4 = s0 + n
    · rw [writeW_eq _ _ _ _ he]
      have hn : a / 4 - s0 = n := by omega
      rw [hn]
    · rw [writeW_ne _ _ _ _ he]
      exact ih m a h1 (by omega)

theorem bytes_recompose (v : Nat) :
    v % 256 + 256 * (v / 2 ^ 8 % 256) + 65536 * (v / 2 ^ 16 % 256) +
      16777216 * (v / 2 ^ 24 % 256) = v % 4294967296 := by omega

theorem readW_foldWrite (val : Nat → Nat) (s0 n i : Nat) (m : Mem) (hi : i < n) :
    readW ((List.range n).foldl (fun mm j => writeW mm (s0 + j) (val j)) m) (s0 + i)
      = val i % W32 := by
  unfold readW
  rw [foldWrite_at val s0 n m (4 * (s0 + i)) (by omega) (by omega),
      foldWrite_at val s0 n m (4 * (s0 + i) + 1) (by omega) (by omega),
      foldWrite_at val s0 n m (4 * (s0 + i) + 2) (by omega) (by omega),
      foldWrite_at val s0 n m (4 * (s0 + i) + 3) (by omega) (by omega)]
  have e0 : 4 * (s0 + i) / 4 - s0 = i := by omega
  have e1 : (4 * (s0 + i) + 1) / 4 - s0 = i := by omega
  have e2 : (4 * (s0 + i) + 2) / 4 - s0 = i := by omega
  have e3 : (4 * (s0 + i) + 3) / 4 - s0 = i := by omega
  have m0 : 4 * (s0 + i) % 4 = 0 := by omega
  have m1 : (4 * (s0 + i) + 1) % 4 = 1 := by omega
  have m2 : (4 * (s0 + i) + 2) % 4 = 2 := by omega
  have m3 : (4 * (s0 + i) + 3) % 4 = 3 := by omega
  rw [e0, e1, e2, e3, m0, m1, m2, m3]
  rw [and255, and255, and255, and255,
      Nat.shiftRight_eq_div_pow, Nat.shiftRight_eq_div_pow, Nat.shiftRight_eq_div_pow,
      Nat.shiftRight_eq_div_pow]
  norm_num
  exact bytes_recompose (val i)

theorem getD_range_map (f : Nat → Nat) (n i : Nat) (hi : i < n) :
    ((List.range n).map f).getD i 0 = f i := by
  simp [List.getD_eq_getElem?_getD, List.getElem?_map, List.getElem?_range, hi]

theorem isValid_fingerprint_iff (swap : Nat) (fp : Nat → Nat) (mem : Mem) (b : FrameBuffer)
    (hv : b.validityChecked ≠ swap) (hc : b.cleared = false) (hf : b.fingerprint = true) :
    (b.isValid swap fp mem = true ↔
      ∀ i < 4, readW mem (b.startAddress >>> 2 + i) &&& mask32 = fp i &&& mask32) := by
  unfold FrameBuffer.isValid
  rw [if_neg hv]
  simp [hc, hf, List.all_eq_true, List.mem_range]

theorem isValid_snapshot_self (swap : Nat) (fp : Nat → Nat) (mem : Mem) (b : FrameBuffer)
    (hc : b.cleared = false) (hf : b.fingerprint = false)
    (halign : b.startAddress % 4 = 0) (n : Nat) (hn : 400 ≤ n) :
    ({ b with rdramCopy := (List.range n).map fun i => mem (b.startAddress + i) }
      : FrameBuffer).isValid swap fp mem = true := by
  by_cases hv : b.validityChecked = swap
  · unfold FrameBuffer.isValid
    rw [if_pos hv]
  · unfold FrameBuffer.isValid
    rw [if_neg hv]
    simp only [hc, hf, Bool.false_eq_true, if_false]
    have hne : (((List.range n).map fun i => mem (b.startAddress + i)).isEmpty == false) := by
      simp [List.isEmpty_iff, List.range_eq_nil]
      omega
    have hlen : ((List.range n).map fun i => mem (b.startAddress + i)).length = n := by
      simp
    rw [if_pos (by simpa using hne)]
    simp only [hlen]
    have hcount : (List.range (n >>> 2)).countP
        (fun j => (readW mem (b.startAddress >>> 2 + j) &&& mask32) !=
          (copyWord ((List.range n).map fun i => mem (b.startAddress + i)) j &&& mask32)) = 0 := by
      rw [List.countP_eq_zero]
      intro j hj
      rw [List.mem_range] at hj
      have hj4 : 4 * j + 3 < n := by
        have : n >>> 2 = n / 4 := by simp [Nat.shiftRight_eq_div_pow]
        omega
      have hcw : copyWord ((List.range n).map fun i => mem (b.startAddress + i)) j =
          mem (b.startAddress + 4 * j) + 256 * mem (b.startAddress + (4 * j + 1)) +
          65536 * mem (b.startAddress + (4 * j + 2)) +
          16777216 * mem (b.startAddress + (4 * j + 3)) := by
        unfold copyWord
        rw [getD_range_map _ _ _ (by omega), getD_range_map _ _ _ (by omega),
            getD_range_map _ _ _ (by omega), getD_range_map _ _ _ (by omega)]
      have hrw : readW mem (b.startAddress >>> 2 + j) =
          mem (b.startAddress + 4 * j) + 256 * mem (b.startAddress + (4 * j + 1)) +
          65536 * mem (b.startAddress + (4 * j + 2)) +
          16777216 * mem (b.startAddress + (4 * j + 3)) := by
        unfold readW
        have d0 : 4 * (b.startAddress >>> 2 + j) = b.startAddress + 4 * j := by
          simp [Nat.shiftRight_eq_div_pow]
          omega
        rw [d0]
        have d1 : b.startAddress + 4 * j + 1 = b.startAddress + (4 * j + 1) := by omega
        have d2 : b.startAddress + 4 * j + 2 = b.startAddress + (4 * j + 2) := by omega
        have d3 : b.startAddress + 4 * j + 3 = b.startAddress + (4 * j + 3) := by omega
        rw [d1, d2, d3]
      simp [hrw, hcw]
    rw [hcount]
    simp only [decide_eq_true_eq]
    omega

theorem copyRdram_aux_eq (rdramSize viWidth : Nat) (fp : Nat → Nat) (mem : Mem)
    (b : FrameBuffer) (haux : b.width ≠ viWidth) (hh : b.captureHeight rdramSize ≠ 0) :
    b.copyRdram rdramSize viWidth 0 fp mem =
      ((List.range (b.captureSize rdramSize / 200)).foldl
        (fun mm i => writeW mm (b.startAddress >>> 2 + i) (if i < 4 then fp i else 0)) mem,
       { b with cleared := false, fingerprint := true }) := by
  unfold FrameBuffer.copyRdram
  rw [if_neg hh, if_pos ⟨by simp [FrameBuffer.isAuxiliary, haux], rfl⟩]

theorem copyRdram_snapshot_eq (rdramSize viWidth copyAux : Nat) (fp : Nat → Nat) (mem : Mem)
    (b : FrameBuffer) (hnaux : ¬(b.isAuxiliary viWidth ∧ copyAux = 0))
    (hh : b.captureHeight rdramSize ≠ 0) :
    b.copyRdram rdramSize viWidth copyAux fp mem =
      (mem, { b with rdramCopy :=
        (List.range (b.captureSize rdramSize)).map fun i => mem (b.startAddress + i) }) := by
  unfold FrameBuffer.copyRdram
  rw [if_neg hh, if_neg hnaux]

/-- **C4** (amended): a buffer captured by `copyRdram` reports valid
immediately after the capture, with no guest-memory mutation in between,
provided the capture is effective: for the fingerprint strategy (auxiliary
buffer, copy-aux policy off) the stamp region — `dataSize / 200` words —
must cover the four checked words, i.e. `dataSize ≥ 800`; for the snapshot
strategy the buffer must not carry a stale cleared/fingerprint flag, its
start address must be word-aligned, and `dataSize ≥ 400` (below that the
1%-of-dwords threshold rounds to zero and even a perfect match is rejected
— see the counterexample).  The fill-color strategy's capture is performed
by collaborators outside the analyzed source. -/
theorem copyRdram_self_valid (rdramSize viWidth copyAux swap : Nat) (fp : Nat → Nat)
    (mem : Mem) (b : FrameBuffer) (hfp : ∀ i, fp i < W32) :
    (b.width ≠ viWidth → b.captureHeight rdramSize ≠ 0 →
      800 ≤ b.captureSize rdramSize →
      (b.copyRdram rdramSize viWidth 0 fp mem).2.isValid swap fp
        (b.copyRdram rdramSize viWidth 0 fp mem).1 = true) ∧
    (¬(b.isAuxiliary viWidth ∧ copyAux = 0) → b.captureHeight rdramSize ≠ 0 →
      400 ≤ b.captureSize rdramSize → b.cleared = false → b.fingerprint = false →
      b.startAddress % 4 = 0 →
      (b.copyRdram rdramSize viWidth copyAux fp mem).2.isValid swap fp
        (b.copyRdram rdramSize viWidth copyAux fp mem).1 = true) := by
  constructor
  · intro haux hh hsize
    rw [copyRdram_aux_eq rdramSize viWidth fp mem b haux hh]
    dsimp only
    by_cases hv : b.validityChecked = swap
    · unfold FrameBuffer.isValid
      rw [if_pos hv]
    · rw [isValid_fingerprint_iff swap fp
        ((List.range (b.captureSize rdramSize / 200)).foldl
          (fun mm i => writeW mm (b.startAddress >>> 2 + i) (if i < 4 then fp i else 0)) mem)
        { b with cleared := false, fingerprint := true } hv rfl rfl]
      intro i hi
      have hq : i < b.captureSize rdramSize / 200 := by omega
      rw [readW_foldWrite (fun j => if j < 4 then fp j else 0) (b.startAddress >>> 2)
        (b.captureSize rdramSize / 200) i mem hq]
      rw [if_pos hi, Nat.mod_eq_of_lt (hfp i)]
  · intro hnaux hh hsize hc hf halign
    rw [copyRdram_snapshot_eq rdramSize viWidth copyAux fp mem b hnaux hh]
    dsimp only
    exact isValid_snapshot_self swap fp mem b hc hf halign _ hsize

/-- **C6** (amended): for an auxiliary buffer that the policy does not
flush, with an effective capture whose data size is at least 800 bytes (so
that the "2%" stamp region covers four words) and a word-aligned start
address, `copyRdram` writes the 16-byte fingerprint stamp into guest
memory at the buffer's start address (followed by `dataSize/200 − 4` zero
words, not modelled in the claim), raises the fingerprint flag, and
`isValid` validates by re-reading exactly those 16 bytes with the low bit
of each 16-bit channel masked: it returns `true` iff all four masked
32-bit words match the stamp. -/
theorem copyRdram_fingerprint_stamp (rdramSize viWidth swap : Nat) (fp : Nat → Nat)
    (mem : Mem) (b : FrameBuffer) (haux : b.width ≠ viWidth)
    (hh : b.captureHeight rdramSize ≠ 0) (hsize : 800 ≤ b.captureSize rdramSize)
    (halign : b.startAddress % 4 = 0) :
    (∀ idx < 16, (b.copyRdram rdramSize viWidth 0 fp mem).1 (b.startAddress + idx) =
        (fp (idx / 4) >>> (8 * (idx % 4))) &&& 0xff) ∧
    (b.copyRdram rdramSize viWidth 0 fp mem).2.fingerprint = true ∧
    (∀ mem2 : Mem, (b.copyRdram rdramSize viWidth 0 fp mem).2.validityChecked ≠ swap →
      ((b.copyRdram rdramSize viWidth 0 fp mem).2.isValid swap fp mem2 = true ↔
        ∀ i < 4, readW mem2 (b.startAddress >>> 2 + i) &&& mask32 = fp i &&& mask32)) := by
  rw [copyRdram_aux_eq rdramSize viWidth fp mem b haux hh]
  dsimp only
  have hs2 : b.startAddress >>> 2 = b.startAddress / 4 := by
    simp [Nat.shiftRight_eq_div_pow]
  have htp : 4 ≤ b.captureSize rdramSize / 200 := by omega
  refine ⟨?_, rfl, ?_⟩
  · intro idx hidx
    rw [foldWrite_at (fun j => if j < 4 then fp j else 0) (b.startAddress >>> 2) _ mem
        (b.startAddress + idx) (by rw [hs2]; omega) (by rw [hs2]; omega)]
    have e1 : (b.startAddress + idx) / 4 - b.startAddress >>> 2 = idx / 4 := by
      rw [hs2]; omega
    have e2 : (b.startAddress + idx) % 4 = idx % 4 := by omega
    rw [e1, e2, if_pos (by omega)]
  · intro mem2 hv
    exact isValid_fingerprint_iff swap fp mem2
      { b with cleared := false, fingerprint := true } hv rfl rfl

/-- **C6**, counterexample: `bufC6` is an unflushed auxiliary buffer whose
capture data size is 200 bytes, so the "2%" stamp is a single word:
`copyRdram` raises the fingerprint flag but leaves byte 8 of the claimed
16-byte stamp unwritten — guest memory still holds 0 there instead of the
stamp byte. -/
theorem copyRdram_fingerprint_counterexample :
    (bufC6.copyRdram 0x7FFFFF 64 0 fpC memZ).2.fingerprint = true ∧
    (bufC6.copyRdram 0x7FFFFF 64 0 fpC memZ).1 (bufC6.startAddress + 8) ≠
      (fpC (8 / 4) >>> (8 * (8 % 4))) &&& 0xff := by
  constructor <;> decide

/-- Witness for **C6** (amended) at a concrete buffer and stamp byte. -/
theorem copyRdram_fingerprint_stamp_witness :
    (bufC4fp.width ≠ 64 ∧ bufC4fp.captureHeight 0x7FFFFF ≠ 0 ∧
      800 ≤ bufC4fp.captureSize 0x7FFFFF ∧ bufC4fp.startAddress % 4 = 0) ∧
    (bufC4fp.copyRdram 0x7FFFFF 64 0 fpC memZ).1 (bufC4fp.startAddress + 5) =
      (fpC (5 / 4) >>> (8 * (5 % 4))) &&& 0xff :=
  ⟨⟨by decide, by decide, by decide, by decide⟩,
   (copyRdram_fingerprint_stamp 0x7FFFFF 64 1 fpC memZ bufC4fp (by decide) (by decide)
      (by decide) (by decide)).1 5 (by omega)⟩

/-- **C4**, counterexample: `bufC4` is captured by the snapshot strategy
(32 bytes), guest memory is not touched afterwards, yet `isValid` reports
it invalid: its zero mismatch count is not strictly below the 1% threshold
`32 / 400 = 0`. -/
theorem copyRdram_self_valid_counterexample :
    (bufC4.copyRdram 0x7FFFFF 4 0 fpC memZ).2.isValid 1 fpC
      (bufC4.copyRdram 0x7FFFFF 4 0 fpC memZ).1 = false := by
  decide

/-- Witness for **C4** (amended): a fingerprint capture of 800 bytes and a
snapshot capture of 400 bytes both report valid right after capture. -/
theorem copyRdram_self_valid_witness :
    (bufC4fp.copyRdram 0x7FFFFF 64 0 fpC memZ).2.isValid 1 fpC
      (bufC4fp.copyRdram 0x7FFFFF 64 0 fpC memZ).1 = true ∧
    (bufC4sn.copyRdram 0x7FFFFF 4 7 fpC memZ).2.isValid 1 fpC
      (bufC4sn.copyRdram 0x7FFFFF 4 7 fpC memZ).1 = true :=
  ⟨(copyRdram_self_valid 0x7FFFFF 64 0 1 fpC memZ bufC4fp
      (by intro i; simp [fpC, W32]; omega)).1 (by decide) (by decide) (by decide),
   (copyRdram_self_valid 0x7FFFFF 4 7 1 fpC memZ bufC4sn
      (by intro i; simp [fpC, W32]; omega)).2 (by decide) (by decide) (by decide)
      (by decide) (by decide) (by decide)⟩

theorem splitAtConflict_eq (p : FrameBuffer → Bool) :
    ∀ rl pre b post, splitAtConflict p rl = some (pre, b, post) →
      rl = pre ++ b :: post ∧ (∀ x ∈ pre, p x = false) ∧ p b = true := by
  intro rl
  induction rl with
  | nil => intro pre b post h; simp [splitAtConflict] at h
  | cons a rest ih =>
    intro pre b post h
    unfold splitAtConflict at h
    by_cases hp : p a
    · rw [if_pos hp] at h
      simp only [Option.some.injEq, Prod.mk.injEq] at h
      obtain ⟨h1, h2, h3⟩ := h
      subst h1; subst h2; subst h3
      exact ⟨rfl, by simp, hp⟩
    · rw [if_neg hp] at h
      rcases Option.map_eq_some'.mp h with ⟨⟨pre', b', post'⟩, hrec, heq⟩
      simp only [Prod.mk.injEq] at heq
      obtain ⟨e1, e2, e3⟩ := heq
      subst e1; subst e2; subst e3
      obtain ⟨hr1, hr2, hr3⟩ := ih pre' b' post' hrec
      refine ⟨by rw [hr1]; rfl, ?_, hr3⟩
      intro x hx
      rcases List.mem_cons.mp hx with rfl | hx2
      · simpa using hp
      · exact hr2 x hx2

theorem splitAtConflict_none (p : FrameBuffer → Bool) :
    ∀ rl, splitAtConflict p rl = none → ∀ x ∈ rl, p x = false := by
  intro rl
  induction rl with
  | nil => intro _ x hx; simp at hx
  | cons a rest ih =>
    intro h x hx
    unfold splitAtConflict at h
    by_cases hp : p a
    · rw [if_pos hp] at h; simp at h
    · rw [if_neg hp] at h
      rcases List.mem_cons.mp hx with rfl | hx2
      · simpa using hp
      · exact ih (by simpa using h) x hx2

theorem findOnePass_no_conflict (s e w : Nat) :
    ∀ rl, (∀ x ∈ rl, conflictQ s e x = false) → findOnePass s e w rl = (none, rl) := by
  intro rl
  induction rl with
  | nil => intro _; rfl
  | cons a rest ih =>
    intro h
    unfold findOnePass
    rw [if_neg (by simp [h a (List.mem_cons_self a rest)])]
    rw [ih fun x hx => h x (List.mem_cons_of_mem a hx)]
    simp

theorem findOnePass_append_clean (s e w : Nat) :
    ∀ pre rest, (∀ x ∈ pre, conflictQ s e x = false) →
      findOnePass s e w (pre ++ rest) =
        ((findOnePass s e w rest).1.map (· + pre.length), pre ++ (findOnePass s e w rest).2) := by
  intro pre
  induction pre with
  | nil =>
    intro rest _
    cases hr : findOnePass s e w rest with
    | mk r1 l1 => cases r1 <;> simp [hr]
  | cons a pre' ih =>
    intro rest h
    have ha : conflictQ s e a = false := h a (List.mem_cons_self a pre')
    have hpre' : ∀ x ∈ pre', conflictQ s e x = false :=
      fun x hx => h x (List.mem_cons_of_mem a hx)
    show findOnePass s e w (a :: (pre' ++ rest)) = _
    conv_lhs => rw [findOnePass]
    rw [if_neg (by simp [ha])]
    rw [ih rest hpre']
    cases hr : findOnePass s e w rest with
    | mk r1 l1 =>
      cases r1 <;> simp [Nat.add_assoc]

theorem findBufferLoop_eq_onePass (s e w : Nat) :
    ∀ fuel rl, rl.length ≤ fuel →
      findBufferLoop s e w fuel rl = findOnePass s e w rl := by
  intro fuel
  induction fuel with
  | zero =>
    intro rl hlen
    have h0 : rl = [] := List.eq_nil_of_length_eq_zero (by omega)
    subst h0
    rfl
  | succ fuel ih =>
    intro rl hlen
    conv_lhs => rw [findBufferLoop]
    cases hsp : splitAtConflict (conflictQ s e) rl with
    | none =>
      rw [findOnePass_no_conflict s e w rl (splitAtConflict_none _ rl hsp)]
    | some trip =>
      obtain ⟨pre, b, post⟩ := trip
      obtain ⟨heq, hclean, hconf⟩ := splitAtConflict_eq _ rl pre b post hsp
      subst heq
      dsimp only
      by_cases hm : b.startAddress = s ∧ b.width = w
      · rw [if_pos hm]
        rw [findOnePass_append_clean s e w pre (b :: post) hclean]
        conv_rhs => rw [findOnePass]
        rw [if_pos hconf, if_pos hm]
        simp
      · rw [if_neg hm]
        have hlen2 : (pre ++ post).length ≤ fuel := by
          simp only [List.length_append, List.length_cons] at hlen ⊢
          omega
        rw [ih (pre ++ post) hlen2]
        have hb : findOnePass s e w (b :: post) = findOnePass s e w post := by
          conv_lhs => rw [findOnePass]
          rw [if_pos hconf, if_neg hm]
        rw [findOnePass_append_clean s e w pre (b :: post) hclean,
            findOnePass_append_clean s e w pre post hclean, hb]

/-- **C3** (amended): the overlap-resolution lookup `_findBuffer`
terminates for every registry list and query, and — scanning entries from
the *oldest* toward the most recently created (the C++ iterates `m_list`,
which keeps the newest entry at the front, from `end()` back to
`begin()`) — behaves as the claim's rules describe: an entry conflicts
exactly when its range contains the query start or the query range
contains the entry's start; the first conflicting entry is returned when
its start address and width both match the query, otherwise it is erased
and the search restarts on the shrunken list; with no conflicting entry
the result is none.  The erase-and-restart recursion visits no entry
twice: it equals the single oldest-first pass `findOnePass`, which
applies exactly those per-entry rules. -/
theorem findBufferPriv_characterization (s e w : Nat) (l : List FrameBuffer) :
    FrameBufferList.findBufferPriv s e w l =
      (let r := findOnePass s e w l.reverse
       (r.1.map fun i => r.2.length - 1 - i, r.2.reverse)) := by
  unfold FrameBufferList.findBufferPriv
  rw [findBufferLoop_eq_onePass s e w l.length l.reverse (by simp)]

/-- **C3**, counterexample to the claimed scan order: in the registry
`[b1ex, b2ex]` (most recent first) both entries conflict with the query
`(0, 60, 10)` and both match it exactly; the code's scan — oldest entry
first — returns the *older* entry `b2ex` (index 1), while a scan "from
most-recently-created backward", as the claim words it, returns `b1ex`
(index 0).  The two entries differ, so the scan order is observable. -/
theorem findBufferPriv_order_counterexample :
    (FrameBufferList.findBufferPriv 0 60 10 [b1ex, b2ex]).1 = some 1 ∧
    (findResolveSpecNewestFirst 0 60 10 [b1ex, b2ex]).1 = some 0 ∧
    b1ex ≠ b2ex := by
  exact ⟨by decide, by decide, by decide⟩

theorem copyRdram_range (rdramSize viWidth copyAux : Nat) (fp : Nat → Nat) (mem : Mem)
    (b : FrameBuffer) :
    ((b.copyRdram rdramSize viWidth copyAux fp mem).2).range = b.range := by
  unfold FrameBuffer.copyRdram
  split <;> (dsimp only; split <;> rfl)

theorem ranges_chain {l1 l2 : List FrameBuffer}
    (h : ∀ b ∈ l1, b.range ∈ l2.map FrameBuffer.range) :
    ∀ t ∈ l1.map FrameBuffer.range, t ∈ l2.map FrameBuffer.range := by
  intro t ht
  rcases List.mem_map.mp ht with ⟨b, hb, rfl⟩
  exact h b hb

theorem removeBufferLC_mem (address : Nat) (l : List FrameBuffer) (cur : Option Nat) :
    ∀ b ∈ (removeBufferLC address l cur).1, b ∈ l := by
  unfold removeBufferLC
  intro b hb
  split at hb
  · exact hb
  · exact (List.eraseIdx_sublist l _).mem hb

theorem findBufferLoop_mem (s e w : Nat) :
    ∀ fuel rl, ∀ b ∈ (findBufferLoop s e w fuel rl).2, b ∈ rl := by
  intro fuel
  induction fuel with
  | zero => intro rl b hb; exact hb
  | succ fuel ih =>
    intro rl b hb
    rw [findBufferLoop] at hb
    cases hsp : splitAtConflict (conflictQ s e) rl with
    | none => rw [hsp] at hb; exact hb
    | some trip =>
      obtain ⟨pre, bb, post⟩ := trip
      rw [hsp] at hb
      dsimp only at hb
      obtain ⟨heq, -, -⟩ := splitAtConflict_eq _ rl pre bb post hsp
      split at hb
      · exact hb
      · have hm := ih (pre ++ post) b hb
        subst heq
        rcases List.mem_append.mp hm with h1 | h1
        · exact List.mem_append.mpr (Or.inl h1)
        · exact List.mem_append.mpr (Or.inr (List.mem_cons_of_mem bb h1))

theorem findBufferPriv_mem (s e w : Nat) (l : List FrameBuffer) :
    ∀ b ∈ (FrameBufferList.findBufferPriv s e w l).2, b ∈ l := by
  unfold FrameBufferList.findBufferPriv
  intro b hb
  dsimp only at hb
  rw [List.mem_reverse] at hb
  have := findBufferLoop_mem s e w l.length l.reverse b hb
  exact List.mem_reverse.mp this

theorem fbCopyToRdramEffect_ranges (env : Env) (address : Nat) (st : ListState) :
    ∀ b ∈ (fbCopyToRdramEffect env address st).list,
      b.range ∈ st.list.map FrameBuffer.range := by
  unfold fbCopyToRdramEffect
  intro b hb
  split at hb
  · exact List.mem_map_of_mem _ hb
  · split at hb
    · split at hb
      · exact List.mem_map_of_mem _ hb
      · rename_i i _ b0 hget
        rcases List.mem_or_eq_of_mem_set hb with h1 | h1
        · exact List.mem_map_of_mem _ h1
        · subst h1
          have hr : ({ (FrameBuffer.copyRdram env.rdramSize env.viWidth env.copyAuxToRDRAM
              env.fp st.mem { b0 with copiedToRdram := true }).2 with cleared := false }
              : FrameBuffer).range =
              b0.range := by
            have := copyRdram_range env.rdramSize env.viWidth env.copyAuxToRDRAM env.fp
              st.mem { b0 with copiedToRdram := true }
            unfold FrameBuffer.range at this ⊢
            simpa using this
          rw [hr]
          exact List.mem_map_of_mem _ (List.get?_mem hget)
    · exact List.mem_map_of_mem _ hb

theorem saveBufferStep1_ranges (env : Env) (st : ListState) :
    ∀ b ∈ (saveBufferStep1 env st).list, b.range ∈ st.list.map FrameBuffer.range := by
  unfold saveBufferStep1
  intro b hb
  split at hb
  · split at hb
    · rename_i cur _ _
      dsimp only at hb
      have h1 := removeBufferLC_mem cur.startAddress
        (fbCopyToRdramEffect env cur.startAddress st).list
        (fbCopyToRdramEffect env cur.startAddress st).current b hb
      exact fbCopyToRdramEffect_ranges env cur.startAddress st b h1
    · exact List.mem_map_of_mem _ hb
  · exact List.mem_map_of_mem _ hb

theorem saveBufferStep3_ranges (env : Env) (st : ListState) :
    ∀ b ∈ (saveBufferStep3 env st).list,
      b.range ∈ corrRangeOf env st ∨ b.range ∈ st.list.map FrameBuffer.range := by
  unfold saveBufferStep3
  intro b hb
  split at hb
  · exact Or.inr (List.mem_map_of_mem _ hb)
  · rename_i i hcur
    split at hb
    · exact Or.inr (List.mem_map_of_mem _ hb)
    · rename_i cur hget
      dsimp only at hb
      have h1 := findBufferPriv_mem _ _ _ _ b hb
      rcases List.mem_or_eq_of_mem_set h1 with h2 | h2
      · exact Or.inr (List.mem_map_of_mem _ h2)
      · subst h2
        left
        have hcr : (if ¬isMarioTennisScoreboard env.hackScoreboard env.hackScoreboardJ
              env.viPAL (correctEnd env st.colorImageHeight st.prevColorImageHeight cur).1.startAddress
            ∧ ¬(correctEnd env st.colorImageHeight st.prevColorImageHeight cur).1.isDepthBuffer
            ∧ ¬(correctEnd env st.colorImageHeight st.prevColorImageHeight cur).1.copiedToRdram
            ∧ ¬(correctEnd env st.colorImageHeight st.prevColorImageHeight cur).1.cfb
            ∧ ¬(correctEnd env st.colorImageHeight st.prevColorImageHeight cur).1.cleared
            ∧ (correctEnd env st.colorImageHeight st.prevColorImageHeight cur).1.rdramCopy = []
            ∧ (correctEnd env st.colorImageHeight st.prevColorImageHeight cur).2.2 > 1 then
              FrameBuffer.copyRdram env.rdramSize env.viWidth env.copyAuxToRDRAM env.fp
                st.mem (correctEnd env st.colorImageHeight st.prevColorImageHeight cur).1
            else (st.mem, (correctEnd env st.colorImageHeight st.prevColorImageHeight cur).1)).2.range
          = (correctEnd env st.colorImageHeight st.prevColorImageHeight cur).1.range := by
          split
          · exact copyRdram_range _ _ _ _ _ _
          · rfl
        unfold corrRangeOf
        rw [hcr]
        have : st.curBuf? = some cur := by
          unfold ListState.curBuf?
          rw [hcur]
          exact hget
        rw [this]
        exact List.mem_singleton.mpr rfl

theorem saveBufferStep45_list (address width : Nat) (st : ListState) :
    (saveBufferStep45 address width st).list = st.list := by
  unfold saveBufferStep45
  split
  · split <;> rfl
  · rfl

theorem saveBufferStep6_ranges (env : Env) (address size width : Nat) (st : ListState) :
    ∀ b ∈ (saveBufferStep6 env address size width st).list,
      b.range ∈ st.list.map FrameBuffer.range := by
  intro b hb
  unfold saveBufferStep6 at hb
  dsimp only at hb
  generalize (if env.nativeResFactor = 0 then (env.oglScaleX : ℚ)
    else (env.nativeResFactor : ℚ)) = sx at hb
  generalize (if env.nativeResFactor = 0 then (env.oglScaleY : ℚ) else sx) = sy at hb
  split at hb
  · exact List.mem_map_of_mem _ hb
  · split at hb
    · exact List.mem_map_of_mem _ hb
    · rename_i i _ cur hget
      split at hb
      · exact List.mem_map_of_mem _ (removeBufferLC_mem _ _ _ b hb)
      · split at hb
        · rcases List.mem_or_eq_of_mem_set hb with h1 | h1
          · exact List.mem_map_of_mem _ h1
          · subst h1
            have hr : (if ({ cur with resolved := false, size := size }
                  : FrameBuffer).copiedToRdram then
                  FrameBuffer.copyRdram env.rdramSize env.viWidth env.copyAuxToRDRAM env.fp
                    st.mem { cur with resolved := false, size := size }
                else (st.mem, { cur with resolved := false, size := size })).2.range
                = cur.range := by
              split
              · rw [copyRdram_range]; rfl
              · rfl
            rw [hr]
            exact List.mem_map_of_mem _ (List.get?_mem hget)
        · rcases List.mem_or_eq_of_mem_set hb with h1 | h1
          · exact List.mem_map_of_mem _ h1
          · subst h1
            have hr2 : ({ cur with resolved := false } : FrameBuffer).range = cur.range := rfl
            rw [hr2]
            exact List.mem_map_of_mem _ (List.get?_mem hget)

theorem saveBufferStep7_ranges (env : Env) (address endAddress size width height : Nat)
    (cfb : Bool) (st : ListState) :
    ∀ b ∈ (saveBufferStep7 env address endAddress size width height cfb st).list,
      b.range = ⟨address, endAddress, width⟩ ∨ b.range ∈ st.list.map FrameBuffer.range := by
  intro b hb
  unfold saveBufferStep7 at hb
  split at hb
  · exact Or.inr (List.mem_map_of_mem _ hb)
  · dsimp only at hb
    split at hb <;>
    · rcases List.mem_cons.mp hb with h1 | h1
      · subst h1
        exact Or.inl rfl
      · exact Or.inr (List.mem_map_of_mem _ h1)

theorem saveBufferStep89_ranges (env : Env) (address : Nat) (st : ListState) :
    ∀ b ∈ (saveBufferStep89 env address st).list,
      b.range ∈ st.list.map FrameBuffer.range := by
  intro b hb
  unfold saveBufferStep89 at hb
  split at hb
  · exact List.mem_map_of_mem _ hb
  · split at hb
    · exact List.mem_map_of_mem _ hb
    · rename_i i _ cur hget
      dsimp only at hb
      rcases List.mem_or_eq_of_mem_set hb with h1 | h1
      · exact List.mem_map_of_mem _ h1
      · subst h1
        have hr : ({ cur with isDepthBuffer := decide (address = env.depthImageAddress) }
            : FrameBuffer).range = cur.range := rfl
        rw [hr]
        exact List.mem_map_of_mem _ (List.get?_mem hget)

theorem saveBuffer_ranges_step (env : Env) (address format size width height : Nat)
    (cfb : Bool) (st : ListState) :
    ∀ b ∈ (FrameBufferList.saveBuffer env address format size width height cfb st).list,
      b.range ∈ saveBufferRanges env address size width height st ∨
      b.range ∈ st.list.map FrameBuffer.range := by
  intro b hb
  unfold FrameBufferList.saveBuffer at hb
  unfold saveBufferRanges
  by_cases h2 : env.viWidth = 0 ∨ height = 0
  · rw [if_pos h2] at hb
    rw [if_pos h2]
    exact Or.inr (saveBufferStep1_ranges env st b hb)
  · rw [if_neg h2] at hb
    rw [if_neg h2]
    dsimp only at hb
    have h89 := saveBufferStep89_ranges env address _ b hb
    rcases List.mem_map.mp h89 with ⟨b7, hb7, hrw⟩
    rcases saveBufferStep7_ranges env address _ size width height cfb _ b7 hb7 with h7 | h7
    · left
      rw [← hrw, h7]
      exact List.mem_append.mpr (Or.inr (List.mem_singleton.mpr rfl))
    · rcases List.mem_map.mp h7 with ⟨b6, hb6, hrw6⟩
      unfold saveBufferStep456 at hb6
      have h6 := saveBufferStep6_ranges env address size width _ b6 hb6
      rw [saveBufferStep45_list] at h6
      rcases List.mem_map.mp h6 with ⟨b3, hb3, hrw3⟩
      rcases saveBufferStep3_ranges env _ b3 hb3 with h3 | h3
      · left
        rw [← hrw, ← hrw6, ← hrw3]
        exact List.mem_append.mpr (Or.inl h3)
      · rcases List.mem_map.mp h3 with ⟨b1, hb1, hrw1⟩
        right
        rw [← hrw, ← hrw6, ← hrw3, ← hrw1]
        exact saveBufferStep1_ranges env st b1 hb1

theorem runSaveBuffers_ranges (calls : List SaveCall) :
    ∀ st : ListState, ∀ b ∈ (runSaveBuffers st calls).list,
      b.range ∈ runRanges st calls ∨ b.range ∈ st.list.map FrameBuffer.range := by
  induction calls with
  | nil => intro st b hb; exact Or.inr (List.mem_map_of_mem _ hb)
  | cons c cs ih =>
    intro st b hb
    unfold runSaveBuffers at hb
    unfold runRanges
    rcases ih _ b hb with h1 | h1
    · exact Or.inl (List.mem_append.mpr (Or.inr h1))
    · rcases List.mem_map.mp h1 with ⟨b1, hb1, hrw⟩
      rcases saveBuffer_ranges_step c.env c.address c.format c.size c.width c.height c.cfb
          st b1 hb1 with h2 | h2
      · left
        rw [← hrw]
        exact List.mem_append.mpr (Or.inl h2)
      · right
        rw [← hrw]
        exact h2

/-- **C1** (amended): `saveBuffer` does not resolve conflicts eagerly (see
the counterexample), so the no-overlap invariant holds only when the
materialized ranges never conflict in the first place: after any sequence
of `saveBuffer` calls from an initialized registry whose materialized
range triples — each call's requested `[address, endAddress]` range plus
the end-address corrections step 3 applies to the bound buffer — are
pairwise disjoint unless they agree on start address and width, every pair
of distinct live entries has disjoint ranges unless the two agree on start
address and width. -/
theorem saveBuffer_noOverlap_of_compatible (mem0 : Mem) (h0 : Nat) (ch0 : Bool)
    (calls : List SaveCall)
    (H : ∀ t1 ∈ runRanges (initRegistry mem0 h0 ch0) calls,
         ∀ t2 ∈ runRanges (initRegistry mem0 h0 ch0) calls, t1.compat t2) :
    noOverlapInvariant (runSaveBuffers (initRegistry mem0 h0 ch0) calls).list := by
  have hsub := runSaveBuffers_ranges calls (initRegistry mem0 h0 ch0)
  apply List.pairwise_of_forall_mem_list
  intro a ha b hb
  rcases hsub a ha with h1 | h1
  · rcases hsub b hb with h2 | h2
    · exact H _ h1 _ h2
    · simp [initRegistry] at h2
  · simp [initRegistry] at h1

/-- Witness for **C1** (amended) at two disjoint concrete calls. -/
theorem saveBuffer_noOverlap_of_compatible_witness :
    (∀ t1 ∈ runRanges (initRegistry memZ 0 false) callsW,
     ∀ t2 ∈ runRanges (initRegistry memZ 0 false) callsW, t1.compat t2) ∧
    noOverlapInvariant (runSaveBuffers (initRegistry memZ 0 false) callsW).list :=
  ⟨by decide, saveBuffer_noOverlap_of_compatible memZ 0 false callsW (by decide)⟩

/-- **C1**, counterexample: from an empty registry, the three calls of
`calls0` — create `[0x1000, 0x2FFF]`, unbind via a zero-height request,
then create `[0x0, 0x1FFF]` with the same width — leave two live entries
whose inclusive ranges overlap on `[0x1000, 0x1FFF]` while their start
addresses differ: `saveBuffer` only checks that no existing entry contains
the new start address (`findBuffer`), so a new range may cover an older
entry's interior without any eviction. -/
theorem saveBuffer_noOverlap_counterexample :
    (runSaveBuffers (initRegistry memZ 0 false) calls0).list.map FrameBuffer.range =
      [⟨0, 0x1FFF, 64⟩, ⟨0x1000, 0x2FFF, 64⟩] ∧
    ¬ noOverlapInvariant (runSaveBuffers (initRegistry memZ 0 false) calls0).list :=
  ⟨by decide, by decide⟩
